import Mathlib

/-!
Shallow embedding of the NostalgiaOS icon/bitmap conversion core:
`src/assets/icons/convert_icons.py` (`parse_ico`, `bmp_to_rgba`) and
`src/assets/icons/convert_start_bmp.py` (`read_bmp_4bit`).

Byte buffers are `List Nat` (each element one byte of the file). Fixed-width
little-endian reads return `Option`, failing exactly when the read would pass
the end of the buffer (Python's `struct.unpack` on a short `f.read` result).
Fallible decoding returns `Except DecodeError`.
-/

/-- Error kinds of the decoding core (spec section 7). -/
inductive DecodeError where
  | invalidContainer
  | truncatedInput
  | noMatchingEntry
  | unsupportedDepth
  | dimensionMismatch
deriving DecidableEq, Repr

/-- One byte (`struct.unpack` of `<B`) at absolute offset `i`. -/
def readU8 (buf : List Nat) (i : Nat) : Option Nat := buf[i]?

/-- Little-endian `u16` at absolute offset `i`. -/
def readU16 (buf : List Nat) (i : Nat) : Option Nat := do
  let a ← buf[i]?
  let b ← buf[i + 1]?
  pure (a + 256 * b)

/-- Little-endian `u32` at absolute offset `i`. -/
def readU32 (buf : List Nat) (i : Nat) : Option Nat := do
  let a ← buf[i]?
  let b ← buf[i + 1]?
  let c ← buf[i + 2]?
  let d ← buf[i + 3]?
  pure (a + 256 * b + 65536 * c + 16777216 * d)

/-- Little-endian signed `i32` at absolute offset `i` (`struct.unpack` of `<i`). -/
def readI32 (buf : List Nat) (i : Nat) : Option Int :=
  (readU32 buf i).map (fun n => if n < 2147483648 then (n : Int) else (n : Int) - 4294967296)

/-- A parsed ICONDIR entry, with width/height already zero-normalized to 256
(the reassignment done in the Python loop body). -/
structure IconDirEntry where
  width : Nat
  height : Nat
  bitCount : Nat
  bytesInRes : Nat
  imageOffset : Nat
deriving DecidableEq, Repr

/-- The `best_entry` tuple `(image_offset, bit_count, bytes_in_res)` kept by
the selection loop of `parse_ico`. -/
structure BestEntry where
  imageOffset : Nat
  bitCount : Nat
  bytesInRes : Nat
deriving DecidableEq, Repr

/-- Parse the 16-byte directory entry that starts at absolute offset `off`,
mirroring the sequence of reads in the loop body of `parse_ico`
(`convert_icons.py` lines 25-38), including the 0 → 256 normalization. -/
def parseEntry (buf : List Nat) (off : Nat) : Option IconDirEntry := do
  let w ← readU8 buf off
  let h ← readU8 buf (off + 1)
  let _colorCount ← readU8 buf (off + 2)
  let _reservedB ← readU8 buf (off + 3)
  let _planes ← readU16 buf (off + 4)
  let bc ← readU16 buf (off + 6)
  let sz ← readU32 buf (off + 8)
  let ofs ← readU32 buf (off + 12)
  pure ⟨if w = 0 then 256 else w, if h = 0 then 256 else h, bc, sz, ofs⟩

/-- One iteration of the `best_entry` update (`convert_icons.py` lines 41-43):
a 32x32 entry replaces the current best exactly when there is no best yet or
its `bit_count` is strictly larger. -/
def stepBest (best : Option BestEntry) (e : IconDirEntry) : Option BestEntry :=
  if e.width = 32 ∧ e.height = 32 then
    match best with
    | none => some ⟨e.imageOffset, e.bitCount, e.bytesInRes⟩
    | some b =>
      if e.bitCount > b.bitCount then some ⟨e.imageOffset, e.bitCount, e.bytesInRes⟩
      else some b
  else best

/-- The descriptor loop `for i in range(count)` of `parse_ico`: each index reads
the 16-byte entry at offset `6 + 16*i`; a read past the end of the buffer
aborts with `TruncatedInput`. -/
def icoScan (buf : List Nat) : List Nat → Option BestEntry → Except DecodeError (Option BestEntry)
  | [], best => .ok best
  | i :: rest, best =>
    match parseEntry buf (6 + 16 * i) with
    | none => .error .truncatedInput
    | some e => icoScan buf rest (stepBest best e)

/-- `parse_ico` (`convert_icons.py` lines 11-53): parse the 6-byte ICONDIR
header, scan `count` directory entries keeping the best 32x32 one, then return
the selected image region (`f.seek(offset); f.read(size)`, which never fails)
together with its bit count. -/
def parse_ico (buf : List Nat) : Except DecodeError (List Nat × Nat) :=
  match readU16 buf 0, readU16 buf 2, readU16 buf 4 with
  | some reserved, some tyField, some count =>
    if reserved = 0 ∧ tyField = 1 then
      match icoScan buf (List.range count) none with
      | .error e => .error e
      | .ok none => .error .noMatchingEntry
      | .ok (some b) => .ok ((buf.drop b.imageOffset).take b.bytesInRes, b.bitCount)
    else .error .invalidContainer
  | _, _, _ => .error .truncatedInput

/-- Concatenating traversal: run `f` on each element in order and append the
produced chunks, failing at the first failure.  This is the shape of every
Python pixel loop (`pixels.extend(...)` inside nested `for`s with indexed
reads that can raise `IndexError`). -/
def concatMapM (f : Nat → Option (List Nat)) : List Nat → Option (List Nat)
  | [] => some []
  | i :: rest =>
    match f i, concatMapM f rest with
    | some ys, some zs => some (ys ++ zs)
    | _, _ => none

/-- The four byte reads `b,g,r,a = bmp_data[offset..offset+3]` of the 32-bit
icon pixel loop, emitted in `[r, g, b, a]` order (`convert_icons.py` 78-82). -/
def bgraPixelAt (buf : List Nat) (off : Nat) : Option (List Nat) := do
  let b ← buf[off]?
  let g ← buf[off + 1]?
  let r ← buf[off + 2]?
  let a ← buf[off + 3]?
  pure [r, g, b, a]

/-- One output row of the 32-bit icon decode: source row `y`, columns 0..31,
pixel `(y*32+x)` at byte offset `40 + (y*32+x)*4`. -/
def decodeRow32 (buf : List Nat) (y : Nat) : Option (List Nat) :=
  concatMapM (fun x => bgraPixelAt buf (40 + (y * 32 + x) * 4)) (List.range 32)

/-- The full 32-bit pixel loop `for y in range(31, -1, -1)` of `bmp_to_rgba`:
output row `i` is decoded from source row `31 - i`. -/
def decode32pixels (buf : List Nat) : Option (List Nat) :=
  concatMapM (fun i => decodeRow32 buf (31 - i)) (List.range 32)

/-- The placeholder emitted for unsupported bit depths
(`convert_icons.py` 89-92): 32*32 copies of the sentinel `[128,128,192,255]`. -/
def placeholderPixels : List Nat :=
  (List.replicate (32 * 32) [128, 128, 192, 255]).flatten

/-- Result of `bmp_to_rgba`: the RGBA bytes plus whether the non-fatal
`UnsupportedDepth` warning was printed on the placeholder path. -/
structure DecodeOut where
  pixels : List Nat
  warnedUnsupportedDepth : Bool
deriving DecidableEq, Repr

/-- `bmp_to_rgba` (`convert_icons.py` lines 55-92): parse the DIB sub-header,
halve the declared height (AND mask), require 32x32, then either decode the
32-bit pixels or return the warning placeholder. -/
def bmp_to_rgba (bmp_data : List Nat) (bit_count : Nat) : Except DecodeError DecodeOut :=
  match readU32 bmp_data 0, readI32 bmp_data 4, readI32 bmp_data 8 with
  | some _headerSize, some width, some height =>
    let actual_height : Nat := height.natAbs / 2
    if width = 32 ∧ actual_height = 32 then
      if bit_count = 32 then
        match decode32pixels bmp_data with
        | none => .error .truncatedInput
        | some pix => .ok ⟨pix, false⟩
      else .ok ⟨placeholderPixels, true⟩
    else .error .dimensionMismatch
  | _, _, _ => .error .truncatedInput

/-- A decoded palette color. -/
structure PaletteEntry where
  red : Nat
  green : Nat
  blue : Nat
  alpha : Nat
deriving DecidableEq, Repr

/-- Build a palette entry from the raw `b, g, r` bytes, applying the magenta
color-key rule (`convert_start_bmp.py` lines 36-39). -/
def mkPaletteEntry (b g r : Nat) : PaletteEntry :=
  if r > 200 ∧ b > 200 ∧ g < 50 then ⟨r, g, b, 0⟩ else ⟨r, g, b, 255⟩

/-- Read the 4-byte palette record `b, g, r, reserved` at offset `off`. -/
def readPaletteEntry (buf : List Nat) (off : Nat) : Option PaletteEntry := do
  let b ← buf[off]?
  let g ← buf[off + 1]?
  let r ← buf[off + 2]?
  let _reservedB ← buf[off + 3]?
  pure (mkPaletteEntry b g r)

/-- The 16-entry palette table, read sequentially starting at `base`
(`14 + dib_size` after the seek). -/
def readPalette (buf : List Nat) (base : Nat) : Option (List PaletteEntry) :=
  (List.range 16).mapM (fun i => readPaletteEntry buf (base + 4 * i))

/-- `row_size = ((width * 4 + 31) // 32) * 4` with Python floor division
(`convert_start_bmp.py` line 45); `width` is the signed DIB width. -/
def rowSize (width : Int) : Int := ((width * 4 + 31).fdiv 32) * 4

/-- The four RGBA bytes appended for one palette entry. -/
def pixelRGBA (p : PaletteEntry) : List Nat := [p.red, p.green, p.blue, p.alpha]

/-- One pixel of a 4-bit row: byte `x / 2` of the row, high nibble for even
`x`, low nibble for odd `x`, looked up in the palette. -/
def pixel4 (row_data : List Nat) (palette : List PaletteEntry) (x : Nat) : Option (List Nat) := do
  let byte ← row_data[x / 2]?
  let idx := if x % 2 = 0 then (byte >>> 4) &&& 15 else byte &&& 15
  let p ← palette[idx]?
  pure (pixelRGBA p)

/-- One decoded 4-bit row: columns `0 .. width-1` (empty when `width ≤ 0`,
since Python's `range(width)` is then empty). -/
def decode4bitRow (row_data : List Nat) (palette : List PaletteEntry) (width : Int) :
    Option (List Nat) :=
  concatMapM (fun x => pixel4 row_data palette x) (List.range width.toNat)

/-- The bytes returned by the `j`-th sequential `f.read(row_size)` after
`f.seek(pixel_offset)`; `f.read` never fails, a short read just returns
fewer bytes. -/
def rowBytes (buf : List Nat) (pixel_offset : Nat) (rs : Int) (j : Nat) : List Nat :=
  (buf.drop (pixel_offset + j * rs.toNat)).take rs.toNat

/-- The row loop `for y in range(height - 1, -1, -1)` of `read_bmp_4bit`:
`height` iterations when `height > 0`, none otherwise; iteration `j` decodes
the `j`-th sequentially read row. -/
def decode4bitRows (buf : List Nat) (pixel_offset : Nat) (rs : Int)
    (palette : List PaletteEntry) (width height : Int) : Option (List Nat) :=
  concatMapM (fun j => decode4bitRow (rowBytes buf pixel_offset rs j) palette width)
    (List.range height.toNat)

/-- `read_bmp_4bit` (`convert_start_bmp.py` lines 8-63): check the `BM` magic
(on the possibly short 14-byte header slice), read the pixel-data offset, the
DIB geometry and bit count, require 4-bit, read the 16-entry palette at
`14 + dib_size`, then decode the rows bottom-up from `pixel_offset`.  Returns
the declared signed width and height together with the RGBA bytes. -/
def read_bmp_4bit (buf : List Nat) : Except DecodeError (Int × Int × List Nat) :=
  if buf[0]? = some 66 ∧ buf[1]? = some 77 then
    match readU32 buf 10, readU32 buf 14, readI32 buf 18, readI32 buf 22, readU16 buf 28 with
    | some pixel_offset, some dib_size, some width, some height, some bit_count =>
      if bit_count = 4 then
        match readPalette buf (14 + dib_size) with
        | none => .error .truncatedInput
        | some palette =>
          match decode4bitRows buf pixel_offset (rowSize width) palette width height with
          | none => .error .truncatedInput
          | some pix => .ok (width, height, pix)
      else .error .unsupportedDepth
    | _, _, _, _, _ => .error .truncatedInput
  else .error .invalidContainer

/-! ## Reader lemmas -/

theorem getElemOpt_some_bound {α} {l : List α} {i : Nat} {a : α} (h : l[i]? = some a) :
    i < l.length := by
  by_contra hc
  push_neg at hc
  rw [List.getElem?_eq_none (by omega)] at h
  exact Option.noConfusion h

theorem getElemOpt_none_of_le {α} {l : List α} {i : Nat} (h : l.length ≤ i) : l[i]? = none :=
  List.getElem?_eq_none h

theorem readU16_bound {buf : List Nat} {i v : Nat} (h : readU16 buf i = some v) :
    i + 2 ≤ buf.length := by
  unfold readU16 at h
  cases h1 : buf[i]? with
  | none => simp [h1] at h
  | some a =>
    cases h2 : buf[i + 1]? with
    | none => simp [h1, h2] at h
    | some b => have := getElemOpt_some_bound h2; omega

theorem readU32_bound {buf : List Nat} {i v : Nat} (h : readU32 buf i = some v) :
    i + 4 ≤ buf.length := by
  unfold readU32 at h
  cases h1 : buf[i]? with
  | none => simp [h1] at h
  | some a =>
    cases h2 : buf[i + 1]? with
    | none => simp [h1, h2] at h
    | some b =>
      cases h3 : buf[i + 2]? with
      | none => simp [h1, h2, h3] at h
      | some c =>
        cases h4 : buf[i + 3]? with
        | none => simp [h1, h2, h3, h4] at h
        | some d => have := getElemOpt_some_bound h4; omega

theorem readU8_none {buf : List Nat} {i : Nat} (h : buf.length < i + 1) :
    readU8 buf i = none := getElemOpt_none_of_le (by omega)

theorem readU16_none {buf : List Nat} {i : Nat} (h : buf.length < i + 2) :
    readU16 buf i = none := by
  unfold readU16
  cases h1 : buf[i]? with
  | none => rfl
  | some a => rw [getElemOpt_none_of_le (l := buf) (i := i + 1) (by omega)]; rfl

theorem readU32_none {buf : List Nat} {i : Nat} (h : buf.length < i + 4) :
    readU32 buf i = none := by
  unfold readU32
  cases h1 : buf[i]? with
  | none => rfl
  | some a =>
    cases h2 : buf[i + 1]? with
    | none => rfl
    | some b =>
      cases h3 : buf[i + 2]? with
      | none => rfl
      | some c => rw [getElemOpt_none_of_le (l := buf) (i := i + 3) (by omega)]; rfl

theorem readI32_none {buf : List Nat} {i : Nat} (h : buf.length < i + 4) :
    readI32 buf i = none := by
  unfold readI32
  rw [readU32_none h]
  rfl

/-! ## `concatMapM` lemmas -/

theorem concatMapM_cons {f : Nat → Option (List Nat)} {i : Nat} {rest : List Nat} :
    concatMapM f (i :: rest) =
      match f i, concatMapM f rest with
      | some ys, some zs => some (ys ++ zs)
      | _, _ => none := rfl

theorem concatMapM_length {f : Nat → Option (List Nat)} {c : Nat} (l : List Nat) :
    ∀ r, concatMapM f l = some r → (∀ i ∈ l, ∀ y, f i = some y → y.length = c) →
      r.length = c * l.length := by
  induction l with
  | nil =>
    intro r h _
    simp only [concatMapM, Option.some.injEq] at h
    simp [← h]
  | cons i rest ih =>
    intro r h hall
    rw [concatMapM_cons] at h
    cases hf : f i with
    | none => rw [hf] at h; exact absurd h (by simp)
    | some ys =>
      cases hr : concatMapM f rest with
      | none => rw [hf, hr] at h; exact absurd h (by simp)
      | some zs =>
        rw [hf, hr] at h
        simp only [Option.some.injEq] at h
        have hy := hall i (by simp) ys hf
        have hz := ih zs hr (fun j hj y hji => hall j (by simp [hj]) y hji)
        simp only [← h, List.length_append, hy, hz, List.length_cons]
        ring

theorem concatMapM_congr {f g : Nat → Option (List Nat)} (l : List Nat)
    (h : ∀ i ∈ l, f i = g i) : concatMapM f l = concatMapM g l := by
  induction l with
  | nil => rfl
  | cons i rest ih =>
    rw [concatMapM_cons, concatMapM_cons, h i (by simp), ih (fun j hj => h j (by simp [hj]))]

theorem concatMapM_block {f : Nat → Option (List Nat)} {c : Nat} (l : List Nat) :
    ∀ r, concatMapM f l = some r → (∀ i ∈ l, ∀ y, f i = some y → y.length = c) →
      ∀ n i, l[n]? = some i → ∃ b, f i = some b ∧ (r.drop (c * n)).take c = b := by
  induction l with
  | nil => intro r _ _ n i hn; simp at hn
  | cons j rest ih =>
    intro r h hall n i hn
    rw [concatMapM_cons] at h
    cases hf : f j with
    | none => rw [hf] at h; exact absurd h (by simp)
    | some ys =>
      cases hr : concatMapM f rest with
      | none => rw [hf, hr] at h; exact absurd h (by simp)
      | some zs =>
        rw [hf, hr] at h
        simp only [Option.some.injEq] at h
        have hy := hall j (by simp) ys hf
        cases n with
        | zero =>
          simp only [List.getElem?_cons_zero, Option.some.injEq] at hn
          subst hn
          refine ⟨ys, hf, ?_⟩
          rw [← h]
          simpa using List.take_left' hy
        | succ m =>
          simp only [List.getElem?_cons_succ] at hn
          obtain ⟨b, hb, hbtake⟩ :=
            ih zs hr (fun a ha y hay => hall a (by simp [ha]) y hay) m i hn
          refine ⟨b, hb, ?_⟩
          rw [← h]
          have hdrop : (ys ++ zs).drop (c * (m + 1)) = zs.drop (c * m) := by
            have h1 : c * (m + 1) = c + c * m := by ring
            rw [h1, ← List.drop_drop, List.drop_left' hy]
          rw [hdrop, hbtake]

/-! ## Selection-loop lemmas (`parse_ico`) -/

/-- The `best_entry` payload built from a matching directory entry. -/
def toBest (e : IconDirEntry) : BestEntry := ⟨e.imageOffset, e.bitCount, e.bytesInRes⟩

theorem stepBest_matched_none {e : IconDirEntry} (hm : e.width = 32 ∧ e.height = 32) :
    stepBest none e = some (toBest e) := by
  simp [stepBest, hm.1, hm.2, toBest]

theorem stepBest_matched_gt {e : IconDirEntry} {b : BestEntry}
    (hm : e.width = 32 ∧ e.height = 32) (hgt : e.bitCount > b.bitCount) :
    stepBest (some b) e = some (toBest e) := by
  simp [stepBest, hm.1, hm.2, hgt, toBest]

theorem stepBest_matched_le {e : IconDirEntry} {b : BestEntry}
    (hm : e.width = 32 ∧ e.height = 32) (hgt : ¬e.bitCount > b.bitCount) :
    stepBest (some b) e = some b := by
  simp [stepBest, hm.1, hm.2, hgt]

theorem stepBest_unmatched {e : IconDirEntry} {best : Option BestEntry}
    (hm : ¬(e.width = 32 ∧ e.height = 32)) : stepBest best e = best := by
  simp [stepBest, hm]

theorem foldl_stepBest_eq_none (l : List IconDirEntry) :
    ∀ best, List.foldl stepBest best l = none ↔
      best = none ∧ ∀ e ∈ l, ¬(e.width = 32 ∧ e.height = 32) := by
  induction l with
  | nil => intro best; simp
  | cons e0 rest ih =>
    intro best
    rw [List.foldl_cons, ih]
    by_cases hm : e0.width = 32 ∧ e0.height = 32
    · cases best with
      | none =>
        rw [stepBest_matched_none hm]
        constructor
        · rintro ⟨h, -⟩; exact absurd h (by simp)
        · rintro ⟨-, hall⟩; exact absurd hm (hall e0 (by simp))
      | some b =>
        constructor
        · rintro ⟨h, -⟩
          by_cases hgt : e0.bitCount > b.bitCount
          · rw [stepBest_matched_gt hm hgt] at h; exact absurd h (by simp)
          · rw [stepBest_matched_le hm hgt] at h; exact absurd h (by simp)
        · rintro ⟨h, -⟩; exact absurd h (by simp)
    · rw [stepBest_unmatched hm]
      constructor
      · rintro ⟨h, hall⟩
        refine ⟨h, fun x hx => ?_⟩
        rcases List.mem_cons.mp hx with hx0 | hx1
        · subst hx0; exact hm
        · exact hall x hx1
      · rintro ⟨h, hall⟩
        exact ⟨h, fun x hx => hall x (List.mem_cons_of_mem _ hx)⟩

theorem foldl_stepBest_origin (l : List IconDirEntry) :
    ∀ best b2, List.foldl stepBest best l = some b2 →
      (best = some b2 ∧
        ∀ x ∈ l, x.width = 32 → x.height = 32 → x.bitCount ≤ b2.bitCount)
      ∨ ∃ l₁ e l₂, l = l₁ ++ e :: l₂ ∧ e.width = 32 ∧ e.height = 32 ∧ b2 = toBest e ∧
          (∀ a, best = some a → a.bitCount < e.bitCount) ∧
          (∀ x ∈ l₁, x.width = 32 → x.height = 32 → x.bitCount < e.bitCount) ∧
          (∀ x ∈ l₂, x.width = 32 → x.height = 32 → x.bitCount ≤ e.bitCount) := by
  induction l with
  | nil =>
    intro best b2 h
    simp only [List.foldl_nil] at h
    exact Or.inl ⟨h, by simp⟩
  | cons e0 rest ih =>
    intro best b2 h
    rw [List.foldl_cons] at h
    rcases ih (stepBest best e0) b2 h with ⟨hacc, hall⟩ |
      ⟨l₁, e, l₂, hsplit, hw, hh, hb2, hacc, hl₁, hl₂⟩
    · -- the accumulator after `e0`'s iteration already is the final result
      by_cases hm : e0.width = 32 ∧ e0.height = 32
      · cases best with
        | none =>
          -- `e0` became the best entry: split at `e0`
          rw [stepBest_matched_none hm] at hacc
          have hb2e : b2 = toBest e0 := by
            cases hacc; rfl
          refine Or.inr ⟨[], e0, rest, by simp, hm.1, hm.2, hb2e, by simp, by simp, ?_⟩
          intro x hx hxw hxh
          have hle := hall x hx hxw hxh
          rw [hb2e] at hle
          exact hle
        | some b =>
          by_cases hgt : e0.bitCount > b.bitCount
          · -- `e0` displaced `b`: split at `e0`
            rw [stepBest_matched_gt hm hgt] at hacc
            have hb2e : b2 = toBest e0 := by cases hacc; rfl
            refine Or.inr ⟨[], e0, rest, by simp, hm.1, hm.2, hb2e, ?_, by simp, ?_⟩
            · intro a ha
              cases ha
              exact hgt
            · intro x hx hxw hxh
              have hle := hall x hx hxw hxh
              rw [hb2e] at hle
              exact hle
          · -- `b` kept its place on an equal-or-smaller depth
            rw [stepBest_matched_le hm hgt] at hacc
            have hbb : b = b2 := by cases hacc; rfl
            refine Or.inl ⟨by rw [hbb], ?_⟩
            intro x hx hxw hxh
            rcases List.mem_cons.mp hx with hx0 | hx1
            · subst hx0
              rw [← hbb]
              omega
            · exact hall x hx1 hxw hxh
      · rw [stepBest_unmatched hm] at hacc
        refine Or.inl ⟨hacc, ?_⟩
        intro x hx hxw hxh
        rcases List.mem_cons.mp hx with hx0 | hx1
        · subst hx0; exact absurd ⟨hxw, hxh⟩ hm
        · exact hall x hx1 hxw hxh
    · -- the winner comes from `rest`; prepend `e0` to the strict prefix
      refine Or.inr ⟨e0 :: l₁, e, l₂, by rw [hsplit]; rfl, hw, hh, hb2, ?_, ?_, hl₂⟩
      · intro a ha
        by_cases hm : e0.width = 32 ∧ e0.height = 32
        · cases hbq : best with
          | none => rw [hbq] at ha; exact Option.noConfusion ha
          | some b =>
            rw [hbq] at ha
            cases ha
            by_cases hgt : e0.bitCount > a.bitCount
            · have hlt := hacc (toBest e0) (by rw [hbq, stepBest_matched_gt hm hgt])
              simp only [toBest] at hlt
              omega
            · exact hacc a (by rw [hbq, stepBest_matched_le hm hgt])
        · exact hacc a (by rw [← ha, stepBest_unmatched hm])
      · intro x hx hxw hxh
        rcases List.mem_cons.mp hx with hx0 | hx1
        · subst hx0
          cases hbq : best with
          | none =>
            have hlt := hacc (toBest x) (by rw [hbq, stepBest_matched_none ⟨hxw, hxh⟩])
            simpa [toBest] using hlt
          | some b =>
            by_cases hgt : x.bitCount > b.bitCount
            · have hlt := hacc (toBest x) (by rw [hbq, stepBest_matched_gt ⟨hxw, hxh⟩ hgt])
              simpa [toBest] using hlt
            · have hlt := hacc b (by rw [hbq, stepBest_matched_le ⟨hxw, hxh⟩ hgt])
              omega
        · exact hl₁ x hx1 hxw hxh

theorem icoScan_eq_of_parse (buf : List Nat) :
    ∀ (idxs : List Nat) (best : Option BestEntry),
      (∀ i ∈ idxs, (parseEntry buf (6 + 16 * i)).isSome) →
      icoScan buf idxs best =
        .ok (List.foldl stepBest best (idxs.filterMap (fun i => parseEntry buf (6 + 16 * i)))) := by
  intro idxs
  induction idxs with
  | nil => intro best _; rfl
  | cons j rest ih =>
    intro best hall
    obtain ⟨e, he⟩ := Option.isSome_iff_exists.mp (hall j (by simp))
    rw [List.filterMap_cons]
    simp only [he, icoScan, List.foldl_cons]
    exact ih (stepBest best e) (fun i hi => hall i (by simp [hi]))

theorem icoScan_error_of_missing (buf : List Nat) :
    ∀ (idxs : List Nat) (best : Option BestEntry),
      (∃ i ∈ idxs, parseEntry buf (6 + 16 * i) = none) →
      icoScan buf idxs best = .error .truncatedInput := by
  intro idxs
  induction idxs with
  | nil => rintro best ⟨i, hi, -⟩; simp at hi
  | cons j rest ih =>
    rintro best ⟨i, hi, hnone⟩
    cases hj : parseEntry buf (6 + 16 * j) with
    | none => simp [icoScan, hj]
    | some e =>
      rcases List.mem_cons.mp hi with h0 | h1
      · subst h0; rw [hj] at hnone; exact Option.noConfusion hnone
      · simp only [icoScan, hj]
        exact ih (stepBest best e) ⟨i, h1, hnone⟩

theorem parse_ico_eq_of_valid (buf : List Nat) (count : Nat)
    (hres : readU16 buf 0 = some 0) (hty : readU16 buf 2 = some 1)
    (hcnt : readU16 buf 4 = some count)
    (hent : ∀ i ∈ List.range count, (parseEntry buf (6 + 16 * i)).isSome) :
    parse_ico buf =
      match List.foldl stepBest none
          ((List.range count).filterMap (fun i => parseEntry buf (6 + 16 * i))) with
      | none => .error .noMatchingEntry
      | some b => .ok ((buf.drop b.imageOffset).take b.bytesInRes, b.bitCount) := by
  have hico := icoScan_eq_of_parse buf (List.range count) none hent
  unfold parse_ico
  rw [hres, hty, hcnt]
  simp only [hico]
  cases List.foldl stepBest none
      ((List.range count).filterMap (fun i => parseEntry buf (6 + 16 * i))) with
  | none => rfl
  | some b => rfl

/-- C1: for every icon container whose header is valid (reserved = 0,
type = 1) and whose `count` descriptors all parse, the directory parser
selects, among the descriptors whose zero-normalized dimensions are 32x32,
the one with the strictly highest `bitCount`; every matching descriptor
strictly earlier in the directory has a strictly smaller `bitCount` (so on an
exact tie the first-encountered entry is kept), and every matching descriptor
has `bitCount` at most the winner's.  If no descriptor matches 32x32, parsing
fails with `NoMatchingEntry`. -/
theorem parse_ico_selects_best (buf : List Nat) (count : Nat)
    (hres : readU16 buf 0 = some 0) (hty : readU16 buf 2 = some 1)
    (hcnt : readU16 buf 4 = some count)
    (hent : ∀ i ∈ List.range count, (parseEntry buf (6 + 16 * i)).isSome) :
    ((∀ e ∈ (List.range count).filterMap (fun i => parseEntry buf (6 + 16 * i)),
        ¬(e.width = 32 ∧ e.height = 32)) →
      parse_ico buf = .error .noMatchingEntry)
    ∧ (∀ data bc, parse_ico buf = .ok (data, bc) →
        ∃ l₁ e l₂,
          (List.range count).filterMap (fun i => parseEntry buf (6 + 16 * i)) =
            l₁ ++ e :: l₂ ∧
          e.width = 32 ∧ e.height = 32 ∧ bc = e.bitCount ∧
          data = (buf.drop e.imageOffset).take e.bytesInRes ∧
          (∀ x ∈ l₁, x.width = 32 → x.height = 32 → x.bitCount < e.bitCount) ∧
          (∀ x ∈ l₂, x.width = 32 → x.height = 32 → x.bitCount ≤ e.bitCount)) := by
  have hmain := parse_ico_eq_of_valid buf count hres hty hcnt hent
  constructor
  · intro hnone
    have hfoldn :
        List.foldl stepBest none
          ((List.range count).filterMap (fun i => parseEntry buf (6 + 16 * i))) = none :=
      (foldl_stepBest_eq_none _ none).mpr ⟨rfl, hnone⟩
    rw [hmain, hfoldn]
  · intro data bc hok
    rw [hmain] at hok
    cases hfold : List.foldl stepBest none
        ((List.range count).filterMap (fun i => parseEntry buf (6 + 16 * i))) with
    | none => rw [hfold] at hok; exact absurd hok (by simp)
    | some b =>
      rw [hfold] at hok
      simp only [Except.ok.injEq, Prod.mk.injEq] at hok
      obtain ⟨hdata, hbc⟩ := hok
      rcases foldl_stepBest_origin _ none b hfold with ⟨hcontra, -⟩ |
        ⟨l₁, e, l₂, hsplit, hw, hh, hb2, -, hl₁, hl₂⟩
      · exact absurd hcontra (by simp)
      · refine ⟨l₁, e, l₂, hsplit, hw, hh, ?_, ?_, hl₁, hl₂⟩
        · rw [← hbc, hb2]; rfl
        · rw [← hdata, hb2]; rfl

/-- Witness for C1 at a concrete container: a valid header with one
descriptor whose dimensions are 16x16, so parsing fails with
`NoMatchingEntry`. -/
theorem parse_ico_selects_best_witness :
    parse_ico ([0, 0, 1, 0, 1, 0] ++ [16, 16, 0, 0, 1, 0, 4, 0, 1, 0, 0, 0, 22, 0, 0, 0]) =
      .error .noMatchingEntry :=
  (parse_ico_selects_best
    ([0, 0, 1, 0, 1, 0] ++ [16, 16, 0, 0, 1, 0, 4, 0, 1, 0, 0, 0, 22, 0, 0, 0]) 1
    (by decide) (by decide) (by decide) (by decide)).1 (by decide)

/-- Reduction of `parse_ico` under a valid header: only the descriptor scan
remains. -/
theorem parse_ico_valid_header (buf : List Nat) (c : Nat)
    (hres : readU16 buf 0 = some 0) (hty : readU16 buf 2 = some 1)
    (hcnt : readU16 buf 4 = some c) :
    parse_ico buf =
      match icoScan buf (List.range c) none with
      | .error e => .error e
      | .ok none => .error .noMatchingEntry
      | .ok (some b) => .ok ((buf.drop b.imageOffset).take b.bytesInRes, b.bitCount) := by
  unfold parse_ico
  rw [hres, hty, hcnt]
  rfl

/-- C8: a container whose 6-byte header parses but does not have
reserved = 0 and type = 1 fails with `InvalidContainer`, and in particular no
pixel data is ever produced (the result is never `.ok`). -/
theorem parse_ico_invalid_container (buf : List Nat) (r t c : Nat)
    (hres : readU16 buf 0 = some r) (hty : readU16 buf 2 = some t)
    (hcnt : readU16 buf 4 = some c) (hbad : ¬(r = 0 ∧ t = 1)) :
    parse_ico buf = .error .invalidContainer ∧ ∀ x, parse_ico buf ≠ .ok x := by
  have h : parse_ico buf = .error .invalidContainer := by
    unfold parse_ico
    rw [hres, hty, hcnt]
    exact if_neg hbad
  exact ⟨h, fun x hx => by rw [h] at hx; exact Except.noConfusion hx⟩

/-- Witness for C8: a header with reserved = 1 fails with `InvalidContainer`. -/
theorem parse_ico_invalid_container_witness :
    parse_ico [1, 0, 1, 0, 0, 0] = .error .invalidContainer :=
  (parse_ico_invalid_container [1, 0, 1, 0, 0, 0] 1 1 0
    (by decide) (by decide) (by decide) (by decide)).1

theorem parseEntry_none {buf : List Nat} {off : Nat} (h : buf.length < off + 16) :
    parseEntry buf off = none := by
  unfold parseEntry
  cases h1 : readU8 buf off with
  | none => rfl
  | some w =>
    cases h2 : readU8 buf (off + 1) with
    | none => rfl
    | some v2 =>
      cases h3 : readU8 buf (off + 2) with
      | none => rfl
      | some v3 =>
        cases h4 : readU8 buf (off + 3) with
        | none => rfl
        | some v4 =>
          cases h5 : readU16 buf (off + 4) with
          | none => rfl
          | some v5 =>
            cases h6 : readU16 buf (off + 6) with
            | none => rfl
            | some v6 =>
              cases h7 : readU32 buf (off + 8) with
              | none => rfl
              | some v7 =>
                rw [readU32_none (i := off + 12) (by omega)]
                rfl

/-- C9: with a valid header promising `count = 3` descriptors but a buffer
shorter than the 6 + 3*16 = 54 bytes they occupy, `parse_ico` fails with
`TruncatedInput`; moreover every fixed-width read that would pass the end of
the buffer returns nothing rather than data. -/
theorem parse_ico_truncated (buf : List Nat)
    (hres : readU16 buf 0 = some 0) (hty : readU16 buf 2 = some 1)
    (hcnt : readU16 buf 4 = some 3) (hlen : buf.length < 54) :
    parse_ico buf = .error .truncatedInput
    ∧ (∀ b i, b.length < i + 1 → readU8 b i = none)
    ∧ (∀ b i, b.length < i + 2 → readU16 b i = none)
    ∧ (∀ b i, b.length < i + 4 → readU32 b i = none)
    ∧ (∀ b i, b.length < i + 4 → readI32 b i = none) := by
  refine ⟨?_, fun b i h => readU8_none h, fun b i h => readU16_none h,
    fun b i h => readU32_none h, fun b i h => readI32_none h⟩
  have hmiss : ∃ i ∈ List.range 3, parseEntry buf (6 + 16 * i) = none :=
    ⟨2, by decide, parseEntry_none (by omega)⟩
  have hscan := icoScan_error_of_missing buf (List.range 3) none hmiss
  rw [parse_ico_valid_header buf 3 hres hty hcnt, hscan]

/-- Witness for C9: a 6-byte buffer announcing 3 descriptors is truncated. -/
theorem parse_ico_truncated_witness :
    parse_ico [0, 0, 1, 0, 3, 0] = .error .truncatedInput :=
  (parse_ico_truncated [0, 0, 1, 0, 3, 0]
    (by decide) (by decide) (by decide) (by decide)).1

/-! ## Palette and placeholder lemmas -/

theorem mkPaletteEntry_alpha_iff (b g r : Nat) :
    ((mkPaletteEntry b g r).alpha = 0 ↔ (r > 200 ∧ b > 200 ∧ g < 50)) := by
  by_cases hc : r > 200 ∧ b > 200 ∧ g < 50
  · simp [mkPaletteEntry, hc]
  · simp [mkPaletteEntry, hc]

/-- C5: every palette record is read as blue, green, red, reserved, and the
decoded entry is transparent (alpha = 0) exactly when red > 200, blue > 200
and green < 50; otherwise alpha = 255.  In particular bright magenta
(255, 0, 255) becomes transparent while pure red (255, 0, 0) stays opaque. -/
theorem palette_color_key (buf : List Nat) (off : Nat) (p : PaletteEntry)
    (h : readPaletteEntry buf off = some p) :
    (∃ b g r x, buf[off]? = some b ∧ buf[off + 1]? = some g ∧
      buf[off + 2]? = some r ∧ buf[off + 3]? = some x ∧
      p = mkPaletteEntry b g r ∧
      (p.alpha = 0 ↔ (r > 200 ∧ b > 200 ∧ g < 50)) ∧
      (p.alpha = 0 ∨ p.alpha = 255))
    ∧ (mkPaletteEntry 255 0 255).alpha = 0
    ∧ (mkPaletteEntry 0 0 255).alpha = 255 := by
  refine ⟨?_, by decide, by decide⟩
  unfold readPaletteEntry at h
  cases h1 : buf[off]? with
  | none => rw [h1] at h; exact absurd h (by simp)
  | some b =>
    cases h2 : buf[off + 1]? with
    | none => rw [h1, h2] at h; exact absurd h (by simp)
    | some g =>
      cases h3 : buf[off + 2]? with
      | none => rw [h1, h2, h3] at h; exact absurd h (by simp)
      | some r =>
        cases h4 : buf[off + 3]? with
        | none => rw [h1, h2, h3, h4] at h; exact absurd h (by simp)
        | some x =>
          rw [h1, h2, h3, h4] at h
          have hmk : mkPaletteEntry b g r = p := Option.some.inj h
          refine ⟨b, g, r, x, rfl, rfl, rfl, rfl, hmk.symm, ?_, ?_⟩
          · rw [← hmk]; exact mkPaletteEntry_alpha_iff b g r
          · rw [← hmk]
            unfold mkPaletteEntry
            by_cases hc : r > 200 ∧ b > 200 ∧ g < 50
            · rw [if_pos hc]; exact Or.inl rfl
            · rw [if_neg hc]; exact Or.inr rfl

/-- Witness for C5 at a concrete magenta record. -/
theorem palette_color_key_witness :
    (mkPaletteEntry 255 0 255).alpha = 0 ∧ (mkPaletteEntry 0 0 255).alpha = 255 :=
  ⟨(palette_color_key [255, 0, 255, 0] 0 (mkPaletteEntry 255 0 255) (by decide)).2.1,
   (palette_color_key [255, 0, 255, 0] 0 (mkPaletteEntry 255 0 255) (by decide)).2.2⟩

/-- C6: on the icon path the true height is `|declared height| / 2`, and the
decode fails with `DimensionMismatch` exactly when the sub-header width is not
32 or that true height is not 32.  (The function receives only the embedded
bitmap bytes and the directory `bit_count`; the descriptor's byte-sized
dimensions play no part in the geometry.) -/
theorem bmp_to_rgba_dimension_check (data : List Nat) (bc hs : Nat) (w h : Int)
    (h0 : readU32 data 0 = some hs) (h4 : readI32 data 4 = some w)
    (h8 : readI32 data 8 = some h) :
    (¬(w = 32 ∧ h.natAbs / 2 = 32) → bmp_to_rgba data bc = .error .dimensionMismatch)
    ∧ ((w = 32 ∧ h.natAbs / 2 = 32) → bmp_to_rgba data bc ≠ .error .dimensionMismatch) := by
  constructor
  · intro hbad
    unfold bmp_to_rgba
    rw [h0, h4, h8]
    exact if_neg hbad
  · intro hgood hcontra
    have hred : bmp_to_rgba data bc =
        (if bc = 32 then
          match decode32pixels data with
          | none => .error .truncatedInput
          | some pix => .ok ⟨pix, false⟩
        else .ok ⟨placeholderPixels, true⟩) := by
      unfold bmp_to_rgba
      rw [h0, h4, h8]
      exact if_pos hgood
    rw [hred] at hcontra
    by_cases hb : bc = 32
    · rw [if_pos hb] at hcontra
      cases hd : decode32pixels data with
      | none =>
        rw [hd] at hcontra
        injection hcontra with h2
        cases h2
      | some pix => rw [hd] at hcontra; simp at hcontra
    · rw [if_neg hb] at hcontra; simp at hcontra

/-- Witness for C6: a sub-header declaring width 16 fails the 32x32 check. -/
theorem bmp_to_rgba_dimension_check_witness :
    bmp_to_rgba [40, 0, 0, 0, 16, 0, 0, 0, 64, 0, 0, 0] 32 = .error .dimensionMismatch :=
  (bmp_to_rgba_dimension_check [40, 0, 0, 0, 16, 0, 0, 0, 64, 0, 0, 0] 32 40 16 64
    (by decide) (by decide) (by decide)).1 (by decide)

theorem flatten_replicate_length {α} (blk : List α) :
    ∀ n, (List.replicate n blk).flatten.length = blk.length * n := by
  intro n
  induction n with
  | zero => simp
  | succ m ih =>
    rw [List.replicate_succ, List.flatten_cons, List.length_append, ih]
    ring

theorem flatten_replicate_block {α} (blk : List α) :
    ∀ n i, i < n →
      (((List.replicate n blk).flatten.drop (blk.length * i)).take blk.length) = blk := by
  intro n
  induction n with
  | zero => intro i hi; omega
  | succ m ih =>
    intro i hi
    rw [List.replicate_succ, List.flatten_cons]
    cases i with
    | zero =>
      rw [Nat.mul_zero, List.drop_zero]
      exact List.take_left blk _
    | succ j =>
      have h1 : blk.length * (j + 1) = blk.length + blk.length * j := by ring
      rw [h1, ← List.drop_drop, List.drop_left]
      exact ih j (by omega)

/-- C7: when the sub-header geometry check passes but the directory bit count
is not 32, the icon decoder does not fail: it returns the sentinel-filled
32x32 placeholder and signals the `UnsupportedDepth` warning.  The placeholder
is exactly 32*32*4 bytes, every pixel being `[128,128,192,255]`.  On the
standalone-bitmap path a bit count other than 4 is a fatal
`UnsupportedDepth` error with no fallback. -/
theorem unsupported_depth_policy :
    (∀ (data : List Nat) (bc hs : Nat) (w h : Int),
      readU32 data 0 = some hs → readI32 data 4 = some w → readI32 data 8 = some h →
      w = 32 → h.natAbs / 2 = 32 → bc ≠ 32 →
      bmp_to_rgba data bc = .ok ⟨placeholderPixels, true⟩)
    ∧ placeholderPixels.length = 32 * 32 * 4
    ∧ (∀ i, i < 32 * 32 → (placeholderPixels.drop (4 * i)).take 4 = [128, 128, 192, 255])
    ∧ (∀ (buf : List Nat) (po dib : Nat) (w h : Int) (bc : Nat),
      buf[0]? = some 66 → buf[1]? = some 77 →
      readU32 buf 10 = some po → readU32 buf 14 = some dib →
      readI32 buf 18 = some w → readI32 buf 22 = some h → readU16 buf 28 = some bc →
      bc ≠ 4 → read_bmp_4bit buf = .error .unsupportedDepth) := by
  refine ⟨?_, ?_, ?_, ?_⟩
  · intro data bc hs w h h0 h4 h8 hw hh hbc
    have hgood : w = 32 ∧ h.natAbs / 2 = 32 := ⟨hw, hh⟩
    have hred : bmp_to_rgba data bc =
        (if bc = 32 then
          match decode32pixels data with
          | none => .error .truncatedInput
          | some pix => .ok ⟨pix, false⟩
        else .ok ⟨placeholderPixels, true⟩) := by
      unfold bmp_to_rgba
      rw [h0, h4, h8]
      exact if_pos hgood
    rw [hred]
    exact if_neg hbc
  · rw [placeholderPixels, flatten_replicate_length]
    decide
  · intro i hi
    exact flatten_replicate_block [128, 128, 192, 255] (32 * 32) i hi
  · intro buf po dib w h bc h66 h77 hpo hdib hw hh hbc hne
    unfold read_bmp_4bit
    rw [if_pos ⟨h66, h77⟩, hpo, hdib, hw, hh, hbc]
    exact if_neg hne

/-- Witness for C7: an 8-bit icon bitmap produces the warned placeholder; an
8-bit standalone bitmap is a fatal `UnsupportedDepth`. -/
theorem unsupported_depth_policy_witness :
    bmp_to_rgba [40, 0, 0, 0, 32, 0, 0, 0, 64, 0, 0, 0] 8 = .ok ⟨placeholderPixels, true⟩ ∧
    read_bmp_4bit ([66, 77] ++ List.replicate 8 0 ++ [0, 0, 0, 0] ++ [16, 0, 0, 0] ++
      [1, 0, 0, 0] ++ [1, 0, 0, 0] ++ [0, 0] ++ [8, 0]) = .error .unsupportedDepth :=
  ⟨unsupported_depth_policy.1 [40, 0, 0, 0, 32, 0, 0, 0, 64, 0, 0, 0] 8 40 32 64
    (by decide) (by decide) (by decide) rfl (by decide) (by decide),
   unsupported_depth_policy.2.2.2 ([66, 77] ++ List.replicate 8 0 ++ [0, 0, 0, 0] ++
      [16, 0, 0, 0] ++ [1, 0, 0, 0] ++ [1, 0, 0, 0] ++ [0, 0] ++ [8, 0]) 0 16 1 1 8
    (by decide) (by decide) (by decide) (by decide) (by decide) (by decide) (by decide)
    (by decide)⟩

/-- C10: when the DIB header of a standalone 4-bit bitmap declares a height
that is zero or negative, `read_bmp_4bit` succeeds, returning the declared
width and height with an empty pixel sequence: the row loop
`range(height - 1, -1, -1)` runs zero times, so no pixel data is decoded and
no error is raised. -/
theorem read_bmp_4bit_nonpositive_height (buf : List Nat) (po dib : Nat) (w h : Int)
    (pal : List PaletteEntry)
    (h66 : buf[0]? = some 66) (h77 : buf[1]? = some 77)
    (hpo : readU32 buf 10 = some po) (hdib : readU32 buf 14 = some dib)
    (hw : readI32 buf 18 = some w) (hh : readI32 buf 22 = some h)
    (hbc : readU16 buf 28 = some 4) (hpal : readPalette buf (14 + dib) = some pal)
    (hneg : h ≤ 0) :
    read_bmp_4bit buf = .ok (w, h, []) := by
  have hrows : decode4bitRows buf po (rowSize w) pal w h = some [] := by
    unfold decode4bitRows
    rw [Int.toNat_of_nonpos hneg]
    rfl
  have hred : read_bmp_4bit buf =
      (match readPalette buf (14 + dib) with
       | none => .error .truncatedInput
       | some palette =>
          match decode4bitRows buf po (rowSize w) palette w h with
          | none => .error .truncatedInput
          | some pix => .ok (w, h, pix)) := by
    unfold read_bmp_4bit
    rw [if_pos ⟨h66, h77⟩, hpo, hdib, hw, hh, hbc]
    exact if_pos rfl
  have hred2 : read_bmp_4bit buf =
      (match decode4bitRows buf po (rowSize w) pal w h with
       | none => .error .truncatedInput
       | some pix => .ok (w, h, pix)) := by
    rw [hred, hpal]
  rw [hred2, hrows]

/-- The concrete standalone bitmap used as C10's witness: `BM` magic,
pixel offset 0, DIB size 16, width 1, height -1, bit count 4, zero palette. -/
def bmpHeightNeg : List Nat :=
  [66, 77] ++ List.replicate 8 0 ++ [0, 0, 0, 0] ++ [16, 0, 0, 0] ++ [1, 0, 0, 0] ++
  [255, 255, 255, 255] ++ [0, 0] ++ [4, 0] ++ List.replicate 64 0

/-- Witness for C10: height -1 yields a successful empty decode. -/
theorem read_bmp_4bit_nonpositive_height_witness :
    read_bmp_4bit bmpHeightNeg = .ok (1, -1, []) :=
  read_bmp_4bit_nonpositive_height bmpHeightNeg 0 16 1 (-1)
    (List.replicate 16 (mkPaletteEntry 0 0 0))
    (by decide) (by decide) (by decide) (by decide) (by decide) (by decide) (by decide)
    (by decide) (by decide)

/-- C4: (1) for a nonnegative width the row stride is
`ceil(width * 4 / 32) * 4` bytes; (2) a 4-bit row decode reads only the first
`ceil(width / 2)` bytes of the row, so trailing padding bytes are never
interpreted as pixel data; (3) each data byte yields the even-indexed pixel
from its high nibble and the odd-indexed pixel from its low nibble, each
looked up in the palette. -/
theorem read_bmp_4bit_stride_nibbles :
    (∀ w : Int, 0 ≤ w → rowSize w = (((w.toNat * 4) ⌈/⌉ 32 : Nat) : Int) * 4)
    ∧ (∀ (row row' : List Nat) (pal : List PaletteEntry) (w : Int),
        row.take ((w.toNat + 1) / 2) = row'.take ((w.toNat + 1) / 2) →
        decode4bitRow row pal w = decode4bitRow row' pal w)
    ∧ (∀ (pal : List PaletteEntry) (b : Nat) (p q : PaletteEntry),
        pal[(b >>> 4) &&& 15]? = some p → pal[b &&& 15]? = some q →
        decode4bitRow [b] pal 2 = some (pixelRGBA p ++ pixelRGBA q)) := by
  refine ⟨?_, ?_, ?_⟩
  · intro w hw
    obtain ⟨m, rfl⟩ := Int.eq_ofNat_of_zero_le hw
    rw [rowSize, Nat.ceilDiv_eq_add_pred_div]
    have h1 : ((m : Int) * 4 + 31) = ((m * 4 + 31 : Nat) : Int) := by push_cast; ring
    have h2 : (32 : Int) = ((32 : Nat) : Int) := rfl
    rw [h1, h2, ← Int.ofNat_fdiv]
    have h3 : (m : Int).toNat = m := Int.toNat_natCast m
    rw [h3]
    have h4 : m * 4 + 32 - 1 = m * 4 + 31 := by omega
    rw [h4]
  · intro row row' pal w htake
    unfold decode4bitRow
    apply concatMapM_congr
    intro x hx
    have hxlt : x < w.toNat := List.mem_range.mp hx
    have hb : x / 2 < (w.toNat + 1) / 2 := by omega
    unfold pixel4
    have hrr : row[x / 2]? = row'[x / 2]? := by
      rw [← List.getElem?_take_of_lt (l := row) hb, htake, List.getElem?_take_of_lt hb]
    rw [hrr]
  · intro pal b p q hp hq
    unfold decode4bitRow
    rw [show ((2 : Int).toNat) = 2 from rfl, show List.range 2 = [0, 1] from rfl]
    simp [concatMapM, pixel4, hp, hq]

/-- A 16-entry palette whose entry `k` is the gray `(k, k, k, 255)`. -/
def grayPalette : List PaletteEntry :=
  (List.range 16).map (fun k => ⟨k, k, k, 255⟩)

/-- Witness for C4: the stride of a width-2 row, and the byte `0x3F` decoding
to `palette[3]` then `palette[15]`. -/
theorem read_bmp_4bit_stride_nibbles_witness :
    rowSize 2 = ((((2 : Int).toNat * 4) ⌈/⌉ 32 : Nat) : Int) * 4 ∧
    decode4bitRow [63] grayPalette 2 =
      some (pixelRGBA ⟨3, 3, 3, 255⟩ ++ pixelRGBA ⟨15, 15, 15, 255⟩) :=
  ⟨read_bmp_4bit_stride_nibbles.1 2 (by decide),
   read_bmp_4bit_stride_nibbles.2.2 grayPalette 63 ⟨3, 3, 3, 255⟩ ⟨15, 15, 15, 255⟩
     (by decide) (by decide)⟩

/-! ## Decode length lemmas -/

theorem bgraPixelAt_length {buf : List Nat} {off : Nat} {y : List Nat}
    (h : bgraPixelAt buf off = some y) : y.length = 4 := by
  unfold bgraPixelAt at h
  cases h1 : buf[off]? with
  | none => rw [h1] at h; exact absurd h (by simp)
  | some b =>
    cases h2 : buf[off + 1]? with
    | none => rw [h1, h2] at h; exact absurd h (by simp)
    | some g =>
      cases h3 : buf[off + 2]? with
      | none => rw [h1, h2, h3] at h; exact absurd h (by simp)
      | some r =>
        cases h4 : buf[off + 3]? with
        | none => rw [h1, h2, h3, h4] at h; exact absurd h (by simp)
        | some a =>
          rw [h1, h2, h3, h4] at h
          rw [← Option.some.inj h]
          rfl

theorem decodeRow32_length {buf : List Nat} {y : Nat} {row : List Nat}
    (h : decodeRow32 buf y = some row) : row.length = 128 := by
  have hl := concatMapM_length (c := 4) (List.range 32) row h
    (fun x _ yy hyy => bgraPixelAt_length hyy)
  simpa using hl

theorem decode32pixels_length {buf : List Nat} {pix : List Nat}
    (h : decode32pixels buf = some pix) : pix.length = 4096 := by
  have hl := concatMapM_length (c := 128) (List.range 32) pix h
    (fun i _ row hrow => decodeRow32_length hrow)
  simpa using hl

theorem pixel4_length {row : List Nat} {pal : List PaletteEntry} {x : Nat} {y : List Nat}
    (h : pixel4 row pal x = some y) : y.length = 4 := by
  unfold pixel4 at h
  cases h1 : row[x / 2]? with
  | none => rw [h1] at h; exact absurd h (by simp)
  | some byte =>
    rw [h1] at h
    have h3 : ((pal[if x % 2 = 0 then (byte >>> 4) &&& 15 else byte &&& 15]?).bind
        (fun p => some (pixelRGBA p))) = some y := h
    cases h2 : pal[if x % 2 = 0 then (byte >>> 4) &&& 15 else byte &&& 15]? with
    | none => rw [h2] at h3; exact absurd h3 (by simp)
    | some p =>
      rw [h2] at h3
      rw [← Option.some.inj h3]
      rfl

theorem decode4bitRow_length {row : List Nat} {pal : List PaletteEntry} {w : Int}
    {r : List Nat} (h : decode4bitRow row pal w = some r) : r.length = 4 * w.toNat := by
  have hl := concatMapM_length (c := 4) (List.range w.toNat) r h
    (fun x _ y hy => pixel4_length hy)
  simpa using hl

theorem decode4bitRows_length {buf : List Nat} {po : Nat} {rs : Int}
    {pal : List PaletteEntry} {w h : Int} {pix : List Nat}
    (hp : decode4bitRows buf po rs pal w h = some pix) :
    pix.length = 4 * w.toNat * h.toNat := by
  have hl := concatMapM_length (c := 4 * w.toNat) (List.range h.toNat) pix hp
    (fun j _ r hr => decode4bitRow_length hr)
  simpa using hl

/-- C2 (amended): every `bmp_to_rgba` success — the 32-bit decode and the
placeholder fallback — produces exactly 32*32*4 pixel bytes; a
`read_bmp_4bit` success produces exactly width*height*4 bytes provided the
declared width and height are nonnegative.  (With a negative declared
dimension the standalone decoder still succeeds but returns an empty pixel
sequence, so the unconditional claim fails; see the counterexample.) -/
theorem decoded_length_amended :
    (∀ (data : List Nat) (bc : Nat) (out : DecodeOut),
      bmp_to_rgba data bc = .ok out → out.pixels.length = 32 * 32 * 4)
    ∧ (∀ (buf : List Nat) (w h : Int) (pix : List Nat),
      read_bmp_4bit buf = .ok (w, h, pix) → 0 ≤ w → 0 ≤ h →
      (pix.length : Int) = w * h * 4) := by
  constructor
  · intro data bc out hok
    unfold bmp_to_rgba at hok
    cases h0 : readU32 data 0 with
    | none =>
      rw [h0] at hok
      exact absurd (show (Except.error DecodeError.truncatedInput :
        Except DecodeError DecodeOut) = .ok out from hok) (by simp)
    | some hs =>
    cases h4 : readI32 data 4 with
    | none =>
      rw [h0, h4] at hok
      exact absurd (show (Except.error DecodeError.truncatedInput :
        Except DecodeError DecodeOut) = .ok out from hok) (by simp)
    | some w =>
    cases h8 : readI32 data 8 with
    | none =>
      rw [h0, h4, h8] at hok
      exact absurd (show (Except.error DecodeError.truncatedInput :
        Except DecodeError DecodeOut) = .ok out from hok) (by simp)
    | some h =>
      rw [h0, h4, h8] at hok
      have hok2 : (if w = 32 ∧ h.natAbs / 2 = 32 then
          (if bc = 32 then
            match decode32pixels data with
            | none => Except.error DecodeError.truncatedInput
            | some pix => Except.ok (⟨pix, false⟩ : DecodeOut)
          else Except.ok (⟨placeholderPixels, true⟩ : DecodeOut))
        else Except.error DecodeError.dimensionMismatch) = Except.ok out := hok
      by_cases hgood : w = 32 ∧ h.natAbs / 2 = 32
      · rw [if_pos hgood] at hok2
        by_cases hbc : bc = 32
        · rw [if_pos hbc] at hok2
          cases hd : decode32pixels data with
          | none => rw [hd] at hok2; exact absurd hok2 (by simp)
          | some pix =>
            rw [hd] at hok2
            rw [← Except.ok.inj hok2]
            show pix.length = 32 * 32 * 4
            have := decode32pixels_length hd
            omega
        · rw [if_neg hbc] at hok2
          rw [← Except.ok.inj hok2]
          show placeholderPixels.length = 32 * 32 * 4
          rw [placeholderPixels, flatten_replicate_length]
          decide
      · rw [if_neg hgood] at hok2
        exact absurd hok2 (by simp)
  · intro buf w h pix hok hw hh
    unfold read_bmp_4bit at hok
    by_cases hmagic : buf[0]? = some 66 ∧ buf[1]? = some 77
    · rw [if_pos hmagic] at hok
      cases hpo : readU32 buf 10 with
      | none =>
        rw [hpo] at hok
        exact absurd (show (Except.error DecodeError.truncatedInput :
          Except DecodeError (Int × Int × List Nat)) = .ok (w, h, pix) from hok) (by simp)
      | some po =>
      cases hdib : readU32 buf 14 with
      | none =>
        rw [hpo, hdib] at hok
        exact absurd (show (Except.error DecodeError.truncatedInput :
          Except DecodeError (Int × Int × List Nat)) = .ok (w, h, pix) from hok) (by simp)
      | some dib =>
      cases hw2 : readI32 buf 18 with
      | none =>
        rw [hpo, hdib, hw2] at hok
        exact absurd (show (Except.error DecodeError.truncatedInput :
          Except DecodeError (Int × Int × List Nat)) = .ok (w, h, pix) from hok) (by simp)
      | some w2 =>
      cases hh2 : readI32 buf 22 with
      | none =>
        rw [hpo, hdib, hw2, hh2] at hok
        exact absurd (show (Except.error DecodeError.truncatedInput :
          Except DecodeError (Int × Int × List Nat)) = .ok (w, h, pix) from hok) (by simp)
      | some h2 =>
      cases hbc2 : readU16 buf 28 with
      | none =>
        rw [hpo, hdib, hw2, hh2, hbc2] at hok
        exact absurd (show (Except.error DecodeError.truncatedInput :
          Except DecodeError (Int × Int × List Nat)) = .ok (w, h, pix) from hok) (by simp)
      | some bc2 =>
        rw [hpo, hdib, hw2, hh2, hbc2] at hok
        have hok2 : (if bc2 = 4 then
            (match readPalette buf (14 + dib) with
             | none => Except.error DecodeError.truncatedInput
             | some palette =>
                match decode4bitRows buf po (rowSize w2) palette w2 h2 with
                | none => Except.error DecodeError.truncatedInput
                | some pix2 => Except.ok (w2, h2, pix2))
          else Except.error DecodeError.unsupportedDepth) = Except.ok (w, h, pix) := hok
        by_cases hbc4 : bc2 = 4
        · rw [if_pos hbc4] at hok2
          cases hpal : readPalette buf (14 + dib) with
          | none => rw [hpal] at hok2; exact absurd hok2 (by simp)
          | some pal =>
            rw [hpal] at hok2
            have hok3 : (match decode4bitRows buf po (rowSize w2) pal w2 h2 with
                | none => Except.error DecodeError.truncatedInput
                | some pix2 => Except.ok (w2, h2, pix2)) = Except.ok (w, h, pix) := hok2
            cases hrows : decode4bitRows buf po (rowSize w2) pal w2 h2 with
            | none => rw [hrows] at hok3; exact absurd hok3 (by simp)
            | some pix2 =>
              rw [hrows] at hok3
              have heq := Except.ok.inj hok3
              have hweq : w2 = w := congrArg Prod.fst heq
              have hheq : h2 = h := congrArg Prod.fst (congrArg Prod.snd heq)
              have hpixeq : pix2 = pix := congrArg Prod.snd (congrArg Prod.snd heq)
              have hlen := decode4bitRows_length hrows
              rw [hpixeq, hweq, hheq] at hlen
              rw [hlen]
              push_cast [Int.toNat_of_nonneg hw, Int.toNat_of_nonneg hh]
              ring
        · rw [if_neg hbc4] at hok2
          exact absurd hok2 (by simp)
    · rw [if_neg hmagic] at hok
      exact absurd hok (by simp)

/-- The standalone bitmap used to refute the unconditional C2 claim: declared
width -1, height 1, bit count 4. -/
def bmpWidthNeg : List Nat :=
  [66, 77] ++ List.replicate 8 0 ++ [0, 0, 0, 0] ++ [16, 0, 0, 0] ++
  [255, 255, 255, 255] ++ [1, 0, 0, 0] ++ [0, 0] ++ [4, 0] ++ List.replicate 64 0

/-- Counterexample to C2 as stated: a successful standalone decode whose
pixel sequence is empty although width*height*4 = -4. -/
theorem decoded_length_counterexample :
    read_bmp_4bit bmpWidthNeg = .ok (-1, 1, []) ∧
    ¬((([] : List Nat).length : Int) = (-1) * 1 * 4) := by
  refine ⟨rfl, by decide⟩

/-- Witness for C2 (amended): the placeholder path on the icon side and a
2x2 standalone decode both satisfy their length equations. -/
theorem decoded_length_amended_witness :
    bmp_to_rgba [40, 0, 0, 0, 32, 0, 0, 0, 64, 0, 0, 0] 24 = .ok ⟨placeholderPixels, true⟩ ∧
    (⟨placeholderPixels, true⟩ : DecodeOut).pixels.length = 32 * 32 * 4 ∧
    read_bmp_4bit bmpHeightNeg = .ok (1, -1, []) ∧
    ((([] : List Nat).length : Int) = 1 * 0 * 4) :=
  ⟨rfl,
   decoded_length_amended.1 [40, 0, 0, 0, 32, 0, 0, 0, 64, 0, 0, 0] 24
     ⟨placeholderPixels, true⟩ rfl,
   rfl, by decide⟩

/-- A concrete 2x2 4-bit standalone bitmap: palette entry 0 is black, entry 1
is white; the first stored row (file order, visually the bottom row) is two
white pixels (byte 0x11), the last stored row (visually the top row) is two
black pixels (byte 0x00). -/
def bmp22buf : List Nat :=
  [66, 77] ++ List.replicate 8 0 ++ [94, 0, 0, 0] ++ [16, 0, 0, 0] ++ [2, 0, 0, 0] ++
  [2, 0, 0, 0] ++ [0, 0] ++ [4, 0] ++
  ([0, 0, 0, 0] ++ [255, 255, 255, 0] ++ List.replicate 56 0) ++
  ([17, 0, 0, 0] ++ [0, 0, 0, 0])

/-- The palette decoded from `bmp22buf`. -/
def pal22 : List PaletteEntry :=
  mkPaletteEntry 0 0 0 :: mkPaletteEntry 255 255 255 ::
    List.replicate 14 (mkPaletteEntry 0 0 0)

/-- C3 evaluated on `bmp22buf`: the standalone 4-bit decoder appends rows in
stored (file) order — its loop counter runs from height-1 down to 0 but the
row bytes are read sequentially — so output row 0 (the first 8 RGBA bytes,
two white pixels) equals the decode of the FIRST stored source row, and
differs from the decode of the last stored source row (two black pixels),
which is what the claim requires output row 0 to be. -/
theorem read_bmp_4bit_row_order_eval :
    read_bmp_4bit bmp22buf =
      .ok (2, 2, [255, 255, 255, 255, 255, 255, 255, 255, 0, 0, 0, 255, 0, 0, 0, 255])
    ∧ readPalette bmp22buf 30 = some pal22
    ∧ decode4bitRow (rowBytes bmp22buf 94 (rowSize 2) 1) pal22 2 =
        some [0, 0, 0, 255, 0, 0, 0, 255]
    ∧ ([255, 255, 255, 255, 255, 255, 255, 255, 0, 0, 0, 255, 0, 0, 0, 255].take 8 : List Nat) ≠
        [0, 0, 0, 255, 0, 0, 0, 255] :=
  ⟨rfl, rfl, rfl, by decide⟩

/-- The icon-path half of the row-order property does hold: output row `i` of
a successful 32-bit decode is the decode of source row `31 - i`, so output
row 0 is the last stored source row. -/
theorem decode32pixels_row_order (buf pix : List Nat) (h : decode32pixels buf = some pix) :
    ∀ i, i < 32 → ∃ row, decodeRow32 buf (31 - i) = some row ∧
      (pix.drop (128 * i)).take 128 = row := by
  intro i hi
  obtain ⟨b, hb1, hb2⟩ := concatMapM_block (c := 128) (List.range 32) pix h
    (fun j _ r hr => decodeRow32_length hr) i i (by rw [List.getElem?_range hi])
  exact ⟨b, hb1, hb2⟩

/-- BGRA to RGBA channel reordering of one 32-bit row: pixel `x` of a decoded
row carries the source bytes at offsets +2, +1, +0, +3 (red, green, blue,
alpha). -/
theorem decodeRow32_channels (buf : List Nat) (y : Nat) (row : List Nat)
    (h : decodeRow32 buf y = some row) :
    ∀ x, x < 32 → ∃ b g r a,
      buf[40 + (y * 32 + x) * 4]? = some b ∧
      buf[40 + (y * 32 + x) * 4 + 1]? = some g ∧
      buf[40 + (y * 32 + x) * 4 + 2]? = some r ∧
      buf[40 + (y * 32 + x) * 4 + 3]? = some a ∧
      (row.drop (4 * x)).take 4 = [r, g, b, a] := by
  intro x hx
  obtain ⟨blp, hf, htk⟩ := concatMapM_block (c := 4) (List.range 32) row h
    (fun j _ rr hr => bgraPixelAt_length hr) x x (by rw [List.getElem?_range hx])
  unfold bgraPixelAt at hf
  cases h1 : buf[40 + (y * 32 + x) * 4]? with
  | none => rw [h1] at hf; exact absurd hf (by simp)
  | some b =>
    cases h2 : buf[40 + (y * 32 + x) * 4 + 1]? with
    | none => rw [h1, h2] at hf; exact absurd hf (by simp)
    | some g =>
      cases h3 : buf[40 + (y * 32 + x) * 4 + 2]? with
      | none => rw [h1, h2, h3] at hf; exact absurd hf (by simp)
      | some r =>
        cases h4 : buf[40 + (y * 32 + x) * 4 + 3]? with
        | none => rw [h1, h2, h3, h4] at hf; exact absurd hf (by simp)
        | some a =>
          rw [h1, h2, h3, h4] at hf
          refine ⟨b, g, r, a, rfl, rfl, rfl, rfl, ?_⟩
          rw [htk, ← Option.some.inj hf]
